import Mathlib

/-!
Shallow embedding of the C-lexer-analyzer core (`main.py`):
the rule table (`token_specs`) with Python-regex alternation semantics,
the scanner (`lex_code`), the statistics aggregator (`get_token_stats`),
the token-stream differ of the Compare page, and the shape-tree builder
(`generate_parse_tree`).

Strings are modelled as `List Char`.  Each regex rule of the table is
embedded as a matcher returning the length of the (unique, after
backtracking) match of that rule at the current position, or `none`.
The combined pattern `re.compile('|'.join(...), re.DOTALL)` tries the
rules in list order at every position (`finditer`), which is what
`findFirst` below does; `\b` assertions are resolved through the
character immediately before the current position (`prev`).
-/

/-- A token `(line_no, kind, value)` as appended by `lex_code`. -/
abbrev Token := Nat × String × String

/-- An error record `(line_no, 'Unknown Token', value)`. -/
abbrev LexError := Nat × String × String

/-- Python `\w` on the ASCII inputs handled here: `[A-Za-z0-9_]`. -/
def isWordChar (c : Char) : Bool :=
  c.isAlphanum || c == '_'

/-- Whether a `\b` assertion holds at the start of a candidate word-rule
match, given the character immediately before the position (`none` at
the start of the input).  All word rules begin with a word character. -/
def boundaryBefore : Option Char → Bool
  | none => true
  | some c => !(isWordChar c)

/-- Whether a `\b` assertion holds just after a match ending in a word
character, given the rest of the input. -/
def wordEnd : List Char → Bool
  | [] => true
  | c :: _ => !(isWordChar c)

/-- A rule matcher: previous character and remaining input to length of
the match at this position, if the rule matches here. -/
abbrev Matcher := Option Char → List Char → Option Nat

/-- First `some` produced by `f` over a list, in order (the alternation
order of a Python regex `a|b|...`). -/
def firstSome (f : α → Option Nat) : List α → Option Nat
  | [] => none
  | a :: t =>
    match f a with
    | some n => some n
    | none => firstSome f t

/-- Rule `r'#include[ \t]*<[^>]+>'`. -/
def matchLibrary : Matcher := fun _ s =>
  if "#include".data.isPrefixOf s then
    let r1 := s.drop 8
    let sp := r1.takeWhile (fun c => c == ' ' || c == '\t')
    match r1.dropWhile (fun c => c == ' ' || c == '\t') with
    | '<' :: r3 =>
      let nm := r3.takeWhile (fun c => c != '>')
      match nm, r3.dropWhile (fun c => c != '>') with
      | _ :: _, '>' :: _ => some (8 + sp.length + 1 + nm.length + 1)
      | _, _ => none
    | _ => none
  else none

/-- Rule `r'//[^\n]*'`. -/
def matchLineComment : Matcher := fun _ s =>
  if "//".data.isPrefixOf s then
    some (2 + ((s.drop 2).takeWhile (fun c => c != '\n')).length)
  else none

/-- Length up to and including the first occurrence of `*/` (the lazy
`.*?\*/` part of the block-comment rule, under `re.DOTALL`). -/
def blockCloseLen : List Char → Option Nat
  | [] => none
  | [_] => none
  | c1 :: c2 :: t =>
    if c1 = '*' ∧ c2 = '/' then some 2
    else (blockCloseLen (c2 :: t)).map (· + 1)

/-- Rule `r'/\*.*?\*/'` (DOTALL): requires a closing `*/`. -/
def matchBlockComment : Matcher := fun _ s =>
  match s with
  | '/' :: '*' :: rest => (blockCloseLen rest).map (fun n => 2 + n)
  | _ => none

/-- Rule `\b(w1|w2|...)\b` for a fixed word list (none of the words in
the table is a prefix of another, so at most one alternative applies). -/
def matchWordList (ws : List String) : Matcher := fun prev s =>
  if boundaryBefore prev then
    firstSome
      (fun w =>
        if w.data.isPrefixOf s && wordEnd (s.drop w.data.length) then
          some w.data.length
        else none)
      ws
  else none

/-- Rule `r'\b(private|protected|public)\b'`. -/
def matchAccessSpecifier : Matcher :=
  matchWordList ["private", "protected", "public"]

/-- Rule `r'\b(int|float|double|char|bool|string|long|short|void)\b'`. -/
def matchDataType : Matcher :=
  matchWordList ["int", "float", "double", "char", "bool", "string", "long", "short", "void"]

/-- The keyword rule of the table. -/
def matchKeyword : Matcher :=
  matchWordList ["if", "else", "while", "for", "return", "break", "continue", "switch",
    "case", "default", "sizeof", "do", "goto", "enum", "typedef", "struct", "class",
    "const", "static", "volatile", "signed", "unsigned", "try", "catch", "throw",
    "new", "delete"]

/-- A single-character class rule such as `r'[{}\[\]()]'`. -/
def matchCharClass (cs : List Char) : Matcher := fun _ s =>
  match s with
  | c :: _ => if cs.contains c then some 1 else none
  | [] => none

/-- Rule `r'[{}\[\]()]'`. -/
def matchBracket : Matcher :=
  matchCharClass ['\x7b', '\x7d', '[', ']', '(', ')']

/-- Rule `r'[;,:]'`. -/
def matchDelimiter : Matcher :=
  matchCharClass [';', ',', ':']

/-- Rule `r'='`. -/
def matchAssignment : Matcher :=
  matchCharClass ['=']

/-- A plain alternation of literal strings (tried in order, no trailing
context), such as `r'\+\+|--'`. -/
def matchAlts (alts : List String) : Matcher := fun _ s =>
  firstSome
    (fun a => if a.data.isPrefixOf s then some a.data.length else none)
    alts

/-- Rule `r'\+\+|--'`. -/
def matchIncrDecr : Matcher := matchAlts ["++", "--"]

/-- Rule `r'[+\-*/%]'`. -/
def matchArithmetic : Matcher :=
  matchCharClass ['+', '-', '*', '/', '%']

/-- Rule `r'(==|!=|<=|>=|<|>)'`. -/
def matchRelational : Matcher := matchAlts ["==", "!=", "<=", ">=", "<", ">"]

/-- Rule `r'(\|\||&&|!)'`. -/
def matchLogical : Matcher := matchAlts ["||", "&&", "!"]

/-- Rule `r'(&|\||\^|~|<<|>>)'`. -/
def matchBitwise : Matcher := matchAlts ["&", "|", "^", "~", "<<", ">>"]

/-- Rule `r'\b\d+\.\d+\b'`. -/
def matchFloatConstant : Matcher := fun prev s =>
  if boundaryBefore prev then
    let d1 := s.takeWhile Char.isDigit
    match d1, s.drop d1.length with
    | _ :: _, '.' :: r2 =>
      let d2 := r2.takeWhile Char.isDigit
      match d2 with
      | [] => none
      | _ :: _ =>
        if wordEnd (r2.drop d2.length) then
          some (d1.length + 1 + d2.length)
        else none
    | _, _ => none
  else none

/-- Rule `r'\b\d+\b'`. -/
def matchIntegerConstant : Matcher := fun prev s =>
  if boundaryBefore prev then
    let d := s.takeWhile Char.isDigit
    match d with
    | [] => none
    | _ :: _ => if wordEnd (s.drop d.length) then some d.length else none
  else none

/-- Rule `r"'([^\\']|\\.)'"` (one escaped or one plain character). -/
def matchCharacterConstant : Matcher := fun _ s =>
  match s with
  | '\'' :: '\\' :: _ :: '\'' :: _ => some 4
  | '\'' :: c :: '\'' :: _ =>
    if c == '\\' || c == '\'' then none else some 3
  | _ => none

/-- Body of the string-literal rule after the opening quote: consumes
`([^\\"]|\\.)*` and stops at the closing quote. -/
def stringBody : List Char → Option Nat
  | [] => none
  | '"' :: _ => some 0
  | '\\' :: _ :: t => (stringBody t).map (· + 2)
  | _ :: t => (stringBody t).map (· + 1)

/-- Rule `r'"([^\\"]|\\.)*"'`. -/
def matchStringLiteral : Matcher := fun _ s =>
  match s with
  | '"' :: r => (stringBody r).map (fun n => 1 + n + 1)
  | _ => none

/-- Rule `r'\b[A-Za-z_][A-Za-z_0-9]*\b'`. -/
def matchIdentifier : Matcher := fun prev s =>
  if boundaryBefore prev then
    match s with
    | c :: _ =>
      if c.isAlpha || c == '_' then some ((s.takeWhile isWordChar).length)
      else none
    | [] => none
  else none

/-- Rule `r'[ \t\r]+'`. -/
def matchWhitespace : Matcher := fun _ s =>
  let r := s.takeWhile (fun c => c == ' ' || c == '\t' || c == '\r')
  match r with
  | [] => none
  | _ :: _ => some r.length

/-- Rule `r'\n'`. -/
def matchNewline : Matcher := matchCharClass ['\n']

/-- Rule `r'.'` under `re.DOTALL`: any single character. -/
def matchAny : Matcher := fun _ s =>
  match s with
  | _ :: _ => some 1
  | [] => none

/-- The rule table `token_specs`, in source order.  The combined regex
tries these alternatives in exactly this order at each position. -/
def token_specs : List (String × Matcher) :=
  [("Library", matchLibrary),
   ("Line_Comment", matchLineComment),
   ("Block_Comment", matchBlockComment),
   ("Access_Specifier", matchAccessSpecifier),
   ("Data_Type", matchDataType),
   ("Keyword", matchKeyword),
   ("Bracket_Parenthesis", matchBracket),
   ("Delimiter", matchDelimiter),
   ("Assignment_Operator", matchAssignment),
   ("Increment_Decrement_Operator", matchIncrDecr),
   ("Arithmetic_Operator", matchArithmetic),
   ("Relational_Operator", matchRelational),
   ("Logical_Operator", matchLogical),
   ("Bitwise_Operator", matchBitwise),
   ("Float_Constant", matchFloatConstant),
   ("Integer_Constant", matchIntegerConstant),
   ("Character_Constant", matchCharacterConstant),
   ("String_Literal", matchStringLiteral),
   ("Identifier", matchIdentifier),
   ("Whitespace", matchWhitespace),
   ("Newline", matchNewline),
   ("Unknown_Token", matchAny)]

/-- First rule of the table that matches at the current position,
together with the length of its match. -/
def findFirst : List (String × Matcher) → Option Char → List Char → Option (String × Nat)
  | [], _, _ => none
  | (k, m) :: rest, prev, s =>
    match m prev s with
    | some n => some (k, n)
    | none => findFirst rest prev s

/-- The scan loop of `finditer` over the combined pattern: the list of
`(group name, matched lexeme)` pairs, in order.  `fuel` bounds the
number of matches (each match consumes at least one character, so
`s.length` is enough). -/
def scanAux : Nat → Option Char → List Char → List (String × List Char)
  | 0, _, _ => []
  | _ + 1, _, [] => []
  | fuel + 1, prev, c :: rest =>
    match findFirst token_specs prev (c :: rest) with
    | none => []
    | some (k, n) =>
      (k, (c :: rest).take n) ::
        scanAux fuel (((c :: rest).take n).getLast?) ((c :: rest).drop n)

/-- All matches of the combined pattern over the input, in order. -/
def scanTrace (s : List Char) : List (String × List Char) :=
  scanAux s.length none s

/-- The dispatch loop of `lex_code`: whitespace is discarded, a newline
bumps the line counter, an unknown token becomes an error record, and
everything else becomes a token. -/
def processMatches : Nat → List (String × List Char) → List Token × List LexError
  | _, [] => ([], [])
  | line, (kind, value) :: rest =>
    if kind = "Whitespace" then processMatches line rest
    else if kind = "Newline" then processMatches (line + 1) rest
    else if kind = "Unknown_Token" then
      ((processMatches line rest).1,
       (line, "Unknown Token", String.mk value) :: (processMatches line rest).2)
    else
      ((line, kind, String.mk value) :: (processMatches line rest).1,
       (processMatches line rest).2)

/-- `lex_code`: tokens and errors of a source text. -/
def lex_code (source_code : List Char) : List Token × List LexError :=
  processMatches 1 (scanTrace source_code)

/-- Substring test on character lists (Python `needle in hay`). -/
def hasSubstr (nd : List Char) : List Char → Bool
  | [] => nd.isEmpty
  | h :: t => nd.isPrefixOf (h :: t) || hasSubstr nd t

/-- Python `needle in hay` on strings. -/
def pyIn (nd hay : String) : Bool :=
  hasSubstr nd.data hay.data

/-- The four counters of `get_token_stats`. -/
structure Stats where
  Keyword : Nat
  Identifier : Nat
  Constant : Nat
  Operator : Nat
deriving DecidableEq, Repr

/-- One step of the `for` loop of `get_token_stats`: the
`if/elif` chain over the token's kind. -/
def statStep (st : Stats) (kind : String) : Stats :=
  if kind = "Keyword" then { st with Keyword := st.Keyword + 1 }
  else if kind = "Identifier" then { st with Identifier := st.Identifier + 1 }
  else if pyIn "Constant" kind then { st with Constant := st.Constant + 1 }
  else if pyIn "Operator" kind then { st with Operator := st.Operator + 1 }
  else st

/-- `get_token_stats`. -/
def get_token_stats (tokens : List Token) : Stats :=
  tokens.foldl (fun st t => statStep st t.2.1) ⟨0, 0, 0, 0⟩

/-- Label shown in a diff row: `f"{tok[1]}: {tok[2]}" if tok[1] else ""`.
The out-of-range placeholder `("", "", "")` is modelled as `none`; its
kind field is falsy, exactly like an empty kind string. -/
def tokLabel : Option Token → String
  | none => ""
  | some (_, k, v) => if k ≠ "" then k ++ ": " ++ v else ""

/-- The diff-row loop of the Compare page: one pass over
`range(max(len(tokens1), len(tokens2)))`, emitting a row whenever the
positionally aligned tokens differ (an out-of-range side, the
placeholder, never equals an in-range token, whose line is an `int`). -/
def diff_rows (tokens1 tokens2 : List Token) : List (Nat × String × String) :=
  (List.range (max tokens1.length tokens2.length)).filterMap
    (fun i =>
      let tok1 := tokens1[i]?
      let tok2 := tokens2[i]?
      if tok1 ≠ tok2 then some (i + 1, tokLabel tok1, tokLabel tok2) else none)

/-- `df1.equals(df2)` on the two token frames: same shape and same
cell values, i.e. the token lists are equal. -/
def dfEquals (tokens1 tokens2 : List Token) : Bool :=
  decide (tokens1 = tokens2)

/-- The Compare page's result: the equality verdict, and the diff rows
computed only in the unequal branch. -/
def diffStreams (tokens1 tokens2 : List Token) : Bool × List (Nat × String × String) :=
  if dfEquals tokens1 tokens2 then (true, [])
  else (false, diff_rows tokens1 tokens2)

/-- A node of the parse tree: label and ordered children (anytree
nodes with their `parent` links, read off as a rooted tree). -/
inductive PNode where
  | node (label : String) (children : List PNode)

/-- Python `str.strip()`: remove leading and trailing whitespace. -/
def isPySpace (c : Char) : Bool :=
  c == ' ' || c == '\t' || c == '\n' || c == '\r' || c == '\x0b' || c == '\x0c'

/-- Python `str.strip()` on a string. -/
def pyStrip (s : String) : String :=
  String.mk (((s.data.dropWhile isPySpace).reverse.dropWhile isPySpace).reverse)

/-- A read `tokens[i]`: out of range raises `IndexError`. -/
def tRead (tokens : List Token) (i : Nat) : Except String Token :=
  match tokens[i]? with
  | some t => Except.ok t
  | none => Except.error "IndexError: list index out of range"

/-- A `while i < n and not p(tokens[i]): i += 1` scan: first index at or
after `i` whose token satisfies `p`, or `n`. -/
def skipUntil (tokens : List Token) (p : Token → Bool) : Nat → Nat → Nat
  | 0, i => i
  | fuel + 1, i =>
    match tokens[i]? with
    | none => i
    | some t => if p t then i else skipUntil tokens p fuel (i + 1)

/-- The expression loop of the standalone-assignment shape: absorb
tokens up to the next delimiter, mapping the four recognized kinds to
leaves and dropping everything else; returns the leaves and the index
of the delimiter (or `n`). -/
def exprChildren (tokens : List Token) : Nat → Nat → List PNode × Nat
  | 0, i => ([], i)
  | fuel + 1, i =>
    match tokens[i]? with
    | none => ([], i)
    | some (_, k, v) =>
      if k = "Delimiter" then ([], i)
      else
        let rec_ := exprChildren tokens fuel (i + 1)
        let leaf : List PNode :=
          if k = "Identifier" then [PNode.node ("ID: " ++ v) []]
          else if k = "Arithmetic_Operator" then [PNode.node ("Arithmetic_Operator: " ++ v) []]
          else if k = "Integer_Constant" then [PNode.node ("Integer_Constant: " ++ v) []]
          else if k = "Float_Constant" then [PNode.node ("Float_Constant: " ++ v) []]
          else []
        (leaf ++ rec_.1, rec_.2)

/-- The main `while i < n` loop of `generate_parse_tree`, accumulating
the children of the `Program` root.  Every unguarded `tokens[i]` read
of the source goes through `tRead` and propagates `IndexError`. -/
def ptLoop (tokens : List Token) : Nat → Nat → List PNode → Except String (List PNode)
  | 0, _, _ => Except.error "fuel exhausted"
  | fuel + 1, i, acc =>
    match tokens[i]? with
    | none => Except.ok acc
    | some (_, kind, val) =>
      if kind = "Delimiter" ∨ kind = "Bracket_Parenthesis" then
        ptLoop tokens fuel (i + 1) acc
      else if kind = "Data_Type" ∧ (val = "int" ∨ val = "float") then
        match tRead tokens (i + 1) with
        | Except.error e => Except.error e
        | Except.ok (_, _, name) =>
          let idLeaf := PNode.node ("ID: " ++ name) []
          match tokens[i + 2]? with
          | some (_, k2, _) =>
            if k2 = "Assignment_Operator" then
              match tRead tokens (i + 3) with
              | Except.error e => Except.error e
              | Except.ok (_, _, cval) =>
                let ctype := if val = "float" then "Float_Constant" else "Integer_Constant"
                let decl := PNode.node ("Declaration(" ++ val ++ ")")
                  [idLeaf, PNode.node (ctype ++ ": " ++ cval) []]
                ptLoop tokens fuel (i + 4) (acc ++ [decl])
            else
              ptLoop tokens fuel (i + 2) (acc ++ [PNode.node ("Declaration(" ++ val ++ ")") [idLeaf]])
          | none =>
            ptLoop tokens fuel (i + 2) (acc ++ [PNode.node ("Declaration(" ++ val ++ ")") [idLeaf]])
      else if kind = "Line_Comment" ∨ kind = "Block_Comment" then
        ptLoop tokens fuel (i + 1) (acc ++ [PNode.node ("Comment: " ++ pyStrip val) []])
      else if kind == "Identifier" &&
          (match tokens[i + 1]? with
           | some t => t.2.1 == "Assignment_Operator"
           | none => false) then
        let e := exprChildren tokens (tokens.length + 1) (i + 2)
        let asg := PNode.node "Assignment"
          [PNode.node ("ID: " ++ val) [], PNode.node "Expression" e.1]
        ptLoop tokens fuel (e.2 + 1) (acc ++ [asg])
      else if kind = "Keyword" ∧ val = "if" then
        let i1 := skipUntil tokens
          (fun t => t.2.1 == "Bracket_Parenthesis" && t.2.2 == "(")
          (tokens.length + 1) (i + 1)
        match tRead tokens (i1 + 1), tRead tokens (i1 + 2), tRead tokens (i1 + 3) with
        | Except.ok lop, Except.ok rop, Except.ok rip =>
          let cond := PNode.node "Expression"
            [PNode.node ("ID: " ++ lop.2.2) [],
             PNode.node ("Relational_Operator: " ++ rop.2.2) [],
             PNode.node ("Integer_Constant: " ++ rip.2.2) []]
          let i2 := skipUntil tokens
            (fun t => t.2.1 == "Bracket_Parenthesis" && t.2.2 == "\x7b")
            (tokens.length + 1) (i1 + 4)
          match tRead tokens (i2 + 1), tRead tokens (i2 + 3),
              tRead tokens (i2 + 4), tRead tokens (i2 + 5) with
          | Except.ok lid, Except.ok l2, Except.ok a2, Except.ok r2 =>
            let stmt := PNode.node "Statement"
              [PNode.node "Assignment"
                [PNode.node ("ID: " ++ lid.2.2) [],
                 PNode.node "Expression"
                   [PNode.node ("ID: " ++ l2.2.2) [],
                    PNode.node ("Arithmetic_Operator: " ++ a2.2.2) [],
                    PNode.node ("Integer_Constant: " ++ r2.2.2) []]]]
            ptLoop tokens fuel (i2 + 6) (acc ++ [PNode.node "if()" [cond, stmt]])
          | Except.error e, _, _, _ => Except.error e
          | _, Except.error e, _, _ => Except.error e
          | _, _, Except.error e, _ => Except.error e
          | _, _, _, Except.error e => Except.error e
        | Except.error e, _, _ => Except.error e
        | _, Except.error e, _ => Except.error e
        | _, _, Except.error e => Except.error e
      else if kind = "Keyword" ∧ val = "return" then
        match tRead tokens (i + 1) with
        | Except.error e => Except.error e
        | Except.ok rv =>
          ptLoop tokens fuel (i + 2)
            (acc ++ [PNode.node "return()" [PNode.node ("Integer_Constant: " ++ rv.2.2) []]])
      else if kind = "Keyword" ∧ val = "End" then
        ptLoop tokens fuel (i + 1) (acc ++ [PNode.node "End" []])
      else
        ptLoop tokens fuel (i + 1) acc

/-- `generate_parse_tree`: builds the `Program` root, or propagates the
`IndexError` of an unguarded out-of-range read.  Every iteration of
the source loop advances the cursor by at least one, so a fuel of
`len(tokens) + 1` covers every run that the source completes. -/
def generate_parse_tree (tokens : List Token) : Except String PNode :=
  (ptLoop tokens (tokens.length + 1) 0 []).map (fun cs => PNode.node "Program" cs)

/-- The 19 token-producing category names of the rule table (whitespace,
newline and the unknown catch-all never reach the token list). -/
def categoryNames : List String :=
  ["Library", "Line_Comment", "Block_Comment", "Access_Specifier", "Data_Type",
   "Keyword", "Bracket_Parenthesis", "Delimiter", "Assignment_Operator",
   "Increment_Decrement_Operator", "Arithmetic_Operator", "Relational_Operator",
   "Logical_Operator", "Bitwise_Operator", "Float_Constant", "Integer_Constant",
   "Character_Constant", "String_Literal", "Identifier"]

/-- Total of the four counters. -/
def statSum (st : Stats) : Nat :=
  st.Keyword + st.Identifier + st.Constant + st.Operator

/-- The label the specification ascribes to a diff-row side:
`"category: lexeme"` in range, `""` out of range. -/
def claimLabel : Option Token → String
  | none => ""
  | some (_, k, v) => k ++ ": " ++ v

lemma firstSome_eq_some {α : Type} {f : α → Option Nat} {l : List α} {n : Nat}
    (h : firstSome f l = some n) : ∃ a ∈ l, f a = some n := by
  induction l with
  | nil => simp [firstSome] at h
  | cons a t ih =>
    rw [firstSome] at h
    cases hf : f a with
    | some m =>
      rw [hf] at h
      exact ⟨a, List.mem_cons_self a t, by rw [hf]; exact h⟩
    | none =>
      rw [hf] at h
      obtain ⟨b, hb, hfb⟩ := ih h
      exact ⟨b, List.mem_cons_of_mem a hb, hfb⟩

lemma matchLibrary_pos {prev : Option Char} {s : List Char} {n : Nat}
    (h : matchLibrary prev s = some n) : 1 ≤ n := by
  simp only [matchLibrary] at h
  repeat' split at h
  all_goals try cases h
  all_goals omega

lemma matchLineComment_pos {prev : Option Char} {s : List Char} {n : Nat}
    (h : matchLineComment prev s = some n) : 1 ≤ n := by
  simp only [matchLineComment] at h
  repeat' split at h
  all_goals try cases h
  all_goals omega

lemma matchBlockComment_pos {prev : Option Char} {s : List Char} {n : Nat}
    (h : matchBlockComment prev s = some n) : 1 ≤ n := by
  simp only [matchBlockComment] at h
  repeat' split at h
  all_goals try cases h
  all_goals simp only [Option.map_eq_some'] at h
  all_goals obtain ⟨m, _, rfl⟩ := h
  all_goals omega

lemma matchWordList_pos {ws : List String} {prev : Option Char} {s : List Char} {n : Nat}
    (hw : ∀ w ∈ ws, 1 ≤ w.data.length)
    (h : matchWordList ws prev s = some n) : 1 ≤ n := by
  simp only [matchWordList] at h
  split at h
  · obtain ⟨w, hmem, hfw⟩ := firstSome_eq_some h
    split at hfw
    · cases hfw; exact hw w hmem
    · cases hfw
  · cases h

lemma matchCharClass_pos {cs : List Char} {prev : Option Char} {s : List Char} {n : Nat}
    (h : matchCharClass cs prev s = some n) : 1 ≤ n := by
  simp only [matchCharClass] at h
  repeat' split at h
  all_goals try cases h
  all_goals omega

lemma matchAlts_pos {alts : List String} {prev : Option Char} {s : List Char} {n : Nat}
    (hw : ∀ a ∈ alts, 1 ≤ a.data.length)
    (h : matchAlts alts prev s = some n) : 1 ≤ n := by
  simp only [matchAlts] at h
  obtain ⟨a, hmem, hfa⟩ := firstSome_eq_some h
  split at hfa
  · cases hfa; exact hw a hmem
  · cases hfa

lemma matchFloatConstant_pos {prev : Option Char} {s : List Char} {n : Nat}
    (h : matchFloatConstant prev s = some n) : 1 ≤ n := by
  simp only [matchFloatConstant] at h
  repeat' split at h
  all_goals try cases h
  all_goals omega

lemma matchIntegerConstant_pos {prev : Option Char} {s : List Char} {n : Nat}
    (h : matchIntegerConstant prev s = some n) : 1 ≤ n := by
  simp only [matchIntegerConstant] at h
  repeat' split at h
  all_goals try cases h
  all_goals simp_all

lemma matchCharacterConstant_pos {prev : Option Char} {s : List Char} {n : Nat}
    (h : matchCharacterConstant prev s = some n) : 1 ≤ n := by
  simp only [matchCharacterConstant] at h
  repeat' split at h
  all_goals try cases h
  all_goals omega

lemma matchStringLiteral_pos {prev : Option Char} {s : List Char} {n : Nat}
    (h : matchStringLiteral prev s = some n) : 1 ≤ n := by
  simp only [matchStringLiteral] at h
  repeat' split at h
  all_goals try cases h
  all_goals simp only [Option.map_eq_some'] at h
  all_goals obtain ⟨m, _, rfl⟩ := h
  all_goals omega

lemma matchIdentifier_pos {prev : Option Char} {s : List Char} {n : Nat}
    (h : matchIdentifier prev s = some n) : 1 ≤ n := by
  simp only [matchIdentifier] at h
  split at h
  · split at h
    · split at h
      · rename_i c rest hc
        cases h
        have hw : isWordChar c = true := by
          simp only [isWordChar, Char.isAlphanum, Bool.or_eq_true] at hc ⊢
          tauto
        simp [List.takeWhile_cons, hw]
      · cases h
    · cases h
  · cases h

lemma matchWhitespace_pos {prev : Option Char} {s : List Char} {n : Nat}
    (h : matchWhitespace prev s = some n) : 1 ≤ n := by
  simp only [matchWhitespace] at h
  repeat' split at h
  all_goals try cases h
  all_goals simp_all [List.length_eq_zero]

lemma matchAny_pos {prev : Option Char} {s : List Char} {n : Nat}
    (h : matchAny prev s = some n) : 1 ≤ n := by
  simp only [matchAny] at h
  repeat' split at h
  all_goals try cases h
  all_goals omega

lemma findFirst_eq_some {L : List (String × Matcher)} {prev : Option Char}
    {s : List Char} {k : String} {n : Nat}
    (h : findFirst L prev s = some (k, n)) : ∃ m, (k, m) ∈ L ∧ m prev s = some n := by
  induction L with
  | nil => simp [findFirst] at h
  | cons p rest ih =>
    obtain ⟨kp, mp⟩ := p
    rw [findFirst] at h
    cases hm : mp prev s with
    | some v =>
      rw [hm] at h
      obtain ⟨rfl, rfl⟩ : kp = k ∧ v = n := by
        injection h with h; exact ⟨congrArg Prod.fst h, congrArg Prod.snd h⟩
      exact ⟨mp, List.mem_cons_self _ _, hm⟩
    | none =>
      rw [hm] at h
      obtain ⟨m, hmem, hms⟩ := ih h
      exact ⟨m, List.mem_cons_of_mem _ hmem, hms⟩

lemma findFirst_eq_none {L : List (String × Matcher)} {prev : Option Char}
    {s : List Char} (h : findFirst L prev s = none) :
    ∀ p ∈ L, p.2 prev s = none := by
  induction L with
  | nil => simp
  | cons p rest ih =>
    obtain ⟨kp, mp⟩ := p
    rw [findFirst] at h
    cases hm : mp prev s with
    | some v => rw [hm] at h; cases h
    | none =>
      rw [hm] at h
      intro q hq
      rcases List.mem_cons.mp hq with rfl | hq
      · exact hm
      · exact ih h q hq

lemma token_specs_pos {k : String} {m : Matcher}
    (hmem : (k, m) ∈ token_specs) {prev : Option Char} {s : List Char} {n : Nat}
    (h : m prev s = some n) : 1 ≤ n := by
  simp only [token_specs, List.mem_cons, List.mem_nil_iff, or_false, Prod.mk.injEq] at hmem
  rcases hmem with ⟨_, rfl⟩ | ⟨_, rfl⟩ | ⟨_, rfl⟩ | ⟨_, rfl⟩ | ⟨_, rfl⟩ | ⟨_, rfl⟩ |
    ⟨_, rfl⟩ | ⟨_, rfl⟩ | ⟨_, rfl⟩ | ⟨_, rfl⟩ | ⟨_, rfl⟩ | ⟨_, rfl⟩ | ⟨_, rfl⟩ |
    ⟨_, rfl⟩ | ⟨_, rfl⟩ | ⟨_, rfl⟩ | ⟨_, rfl⟩ | ⟨_, rfl⟩ | ⟨_, rfl⟩ | ⟨_, rfl⟩ |
    ⟨_, rfl⟩ | ⟨_, rfl⟩
  · exact matchLibrary_pos h
  · exact matchLineComment_pos h
  · exact matchBlockComment_pos h
  · exact matchWordList_pos (by decide) h
  · exact matchWordList_pos (by decide) h
  · exact matchWordList_pos (by decide) h
  · exact matchCharClass_pos h
  · exact matchCharClass_pos h
  · exact matchCharClass_pos h
  · exact matchAlts_pos (by decide) h
  · exact matchCharClass_pos h
  · exact matchAlts_pos (by decide) h
  · exact matchAlts_pos (by decide) h
  · exact matchAlts_pos (by decide) h
  · exact matchFloatConstant_pos h
  · exact matchIntegerConstant_pos h
  · exact matchCharacterConstant_pos h
  · exact matchStringLiteral_pos h
  · exact matchIdentifier_pos h
  · exact matchWhitespace_pos h
  · exact matchCharClass_pos h
  · exact matchAny_pos h

lemma findFirst_specs_pos {prev : Option Char} {s : List Char} {k : String} {n : Nat}
    (h : findFirst token_specs prev s = some (k, n)) : 1 ≤ n := by
  obtain ⟨m, hmem, hms⟩ := findFirst_eq_some h
  exact token_specs_pos hmem hms

lemma findFirst_specs_cons {prev : Option Char} {c : Char} {rest : List Char} :
    findFirst token_specs prev (c :: rest) ≠ none := by
  intro h
  have hall := findFirst_eq_none h ("Unknown_Token", matchAny) (by simp [token_specs])
  simp [matchAny] at hall

lemma scanAux_nil (fuel : Nat) (prev : Option Char) : scanAux fuel prev [] = [] := by
  cases fuel <;> rfl

/-- With fuel at least the input length, the matched lexemes of the scan
concatenate back to the input: each character lands in exactly one
match, none lost, none duplicated. -/
lemma scanAux_concat : ∀ (fuel : Nat) (prev : Option Char) (s : List Char),
    s.length ≤ fuel → ((scanAux fuel prev s).map Prod.snd).flatten = s := by
  intro fuel
  induction fuel with
  | zero =>
    intro prev s h
    have : s = [] := List.eq_nil_of_length_eq_zero (Nat.le_zero.mp h)
    subst this
    simp [scanAux]
  | succ f ih =>
    intro prev s h
    match s with
    | [] => simp [scanAux]
    | c :: rest =>
      rw [scanAux]
      cases hf : findFirst token_specs prev (c :: rest) with
      | none => exact absurd hf findFirst_specs_cons
      | some kn =>
        obtain ⟨k, n⟩ := kn
        have hn : 1 ≤ n := findFirst_specs_pos hf
        have hlen : ((c :: rest).drop n).length ≤ f := by
          rw [List.length_drop]
          simp only [List.length_cons] at h ⊢
          omega
        simp only [List.map_cons, List.flatten_cons]
        rw [ih _ _ hlen]
        exact List.take_append_drop n (c :: rest)

/-- The scan is insensitive to extra fuel beyond the input length. -/
lemma scanAux_fuel : ∀ (f1 f2 : Nat) (prev : Option Char) (s : List Char),
    s.length ≤ f1 → s.length ≤ f2 → scanAux f1 prev s = scanAux f2 prev s := by
  intro f1
  induction f1 with
  | zero =>
    intro f2 prev s h1 _
    have : s = [] := List.eq_nil_of_length_eq_zero (Nat.le_zero.mp h1)
    subst this
    rw [scanAux_nil, scanAux_nil]
  | succ f ih =>
    intro f2 prev s h1 h2
    match s with
    | [] => rw [scanAux_nil, scanAux_nil]
    | c :: rest =>
      match f2 with
      | 0 => simp at h2
      | g + 1 =>
        rw [scanAux, scanAux]
        cases hf : findFirst token_specs prev (c :: rest) with
        | none => rfl
        | some kn =>
          obtain ⟨k, n⟩ := kn
          have hn : 1 ≤ n := findFirst_specs_pos hf
          have hd : ((c :: rest).drop n).length ≤ f := by
            rw [List.length_drop]; simp only [List.length_cons] at h1 ⊢; omega
          have hd2 : ((c :: rest).drop n).length ≤ g := by
            rw [List.length_drop]; simp only [List.length_cons] at h2 ⊢; omega
          simp [ih g _ _ hd hd2]

lemma processMatches_line_lb : ∀ (ms : List (String × List Char)) (line : Nat) (t : Token),
    t ∈ (processMatches line ms).1 → line ≤ t.1 := by
  intro ms
  induction ms with
  | nil => intro line t ht; simp [processMatches] at ht
  | cons p rest ih =>
    intro line t ht
    obtain ⟨kind, value⟩ := p
    rw [processMatches] at ht
    split at ht
    · exact ih line t ht
    · split at ht
      · exact Nat.le_of_succ_le (ih (line + 1) t ht)
      · split at ht
        · exact ih line t ht
        · rcases List.mem_cons.mp ht with rfl | ht
          · exact Nat.le_refl _
          · exact ih line t ht

lemma processMatches_sorted : ∀ (ms : List (String × List Char)) (line : Nat),
    ((processMatches line ms).1.map (fun t => t.1)).Sorted (· ≤ ·) := by
  intro ms
  induction ms with
  | nil => intro line; simp [processMatches]
  | cons p rest ih =>
    intro line
    obtain ⟨kind, value⟩ := p
    rw [processMatches]
    split
    · exact ih line
    · split
      · exact ih (line + 1)
      · split
        · exact ih line
        · rw [List.map_cons, List.sorted_cons]
          constructor
          · intro b hb
            obtain ⟨t, ht, rfl⟩ := List.mem_map.mp hb
            exact processMatches_line_lb rest line t ht
          · exact ih line

/-- C2: for every input string, the scan terminates (its result is
independent of any fuel at or beyond the input length) and every input
character is consumed by exactly one rule match: the concatenation of
all matched lexemes — token, error and discarded whitespace/newline
matches alike — is the input itself, with nothing lost or duplicated. -/
theorem c2_scan_accounts_for_every_character :
    ∀ s : List Char,
      ((scanTrace s).map Prod.snd).flatten = s ∧
      ∀ extra : Nat, scanAux (s.length + extra) none s = scanTrace s := by
  intro s
  refine ⟨scanAux_concat s.length none s (Nat.le_refl _), fun extra => ?_⟩
  exact scanAux_fuel _ _ none s (by omega) (Nat.le_refl _)

/-- C8: for every input string, the token stream of `lex_code` carries
non-decreasing line numbers, and every line number is at least 1. -/
theorem c8_token_lines_monotone :
    ∀ s : List Char,
      (((lex_code s).1.map (fun t => t.1)).Sorted (· ≤ ·)) ∧
      (lex_code s).1.all (fun t => decide (1 ≤ t.1)) = true := by
  intro s
  constructor
  · exact processMatches_sorted (scanTrace s) 1
  · rw [List.all_eq_true]
    intro t ht
    simpa using processMatches_line_lb (scanTrace s) 1 t ht

/-- C1 counterexample: on the input `"=="` the scanner does not emit
exactly one relational-operator token (the assignment rule precedes the
relational rule, so `"=="` becomes two assignment tokens), and on
`"<<"` it does not emit exactly one bitwise-operator token (the
relational rule precedes the bitwise rule, so `"<<"` becomes two
relational tokens). -/
theorem c1_counterexample :
    ¬ ((lex_code "==".data).1.countP (fun t => t.2.1 == "Relational_Operator") = 1) := by
  decide

/-- C1 amended: the multi-character rule wins only for `"++"` (listed
before the arithmetic rule).  `"<<"` is scanned as two relational
tokens `<`, `<` (the relational rule and its final `<` alternative
precede the bitwise rule), and `"=="` as two assignment tokens `=`, `=`
(the assignment rule precedes the relational rule). -/
theorem c1_amended_operator_priority :
    lex_code "<<".data =
      ([(1, "Relational_Operator", "<"), (1, "Relational_Operator", "<")], []) ∧
    lex_code "==".data =
      ([(1, "Assignment_Operator", "="), (1, "Assignment_Operator", "=")], []) ∧
    lex_code "++".data =
      ([(1, "Increment_Decrement_Operator", "++")], []) := by
  decide

/-- C3: the claim is right about the intended behaviour and the code is
wrong: `generate_parse_tree` performs an unguarded `tokens[i]` read
while consuming the declaration shape, so on the single-token stream of
the source `"int"` it raises `IndexError` instead of catching the
out-of-range read and returning a root node. -/
theorem c3_buildtree_raises_on_truncated_declaration :
    (lex_code "int".data).1 = [(1, "Data_Type", "int")] ∧
    generate_parse_tree [(1, "Data_Type", "int")] =
      Except.error "IndexError: list index out of range" := by
  exact ⟨by decide, rfl⟩

lemma statStep_sum (st : Stats) (kind : String) :
    statSum (statStep st kind) ≤ statSum st + 1 := by
  unfold statStep statSum
  repeat' split
  all_goals simp
  all_goals omega

lemma foldl_statStep_sum : ∀ (ts : List Token) (st : Stats),
    statSum (ts.foldl (fun st t => statStep st t.2.1) st) ≤ statSum st + ts.length := by
  intro ts
  induction ts with
  | nil => intro st; simp
  | cons t rest ih =>
    intro st
    rw [List.foldl_cons]
    calc statSum (rest.foldl (fun st t => statStep st t.2.1) (statStep st t.2.1)) ≤
        statSum (statStep st t.2.1) + rest.length := ih _
      _ ≤ statSum st + 1 + rest.length := by
          have := statStep_sum st t.2.1; omega
      _ = statSum st + (t :: rest).length := by simp [List.length_cons]; omega

/-- C9: the `if/elif` chain of `get_token_stats` counts each token at
most once, so the four counters total at most the number of tokens; the
empty stream yields all-zero counts. -/
theorem c9_each_token_counted_at_most_once :
    (∀ ts : List Token, statSum (get_token_stats ts) ≤ ts.length) ∧
    get_token_stats [] = ⟨0, 0, 0, 0⟩ := by
  constructor
  · intro ts
    have := foldl_statStep_sum ts ⟨0, 0, 0, 0⟩
    simpa [get_token_stats, statSum] using this
  · rfl

lemma statStep_of_category {k : String} (hk : k ∈ categoryNames) (st : Stats) :
    statStep st k =
      ⟨st.Keyword + (if k == "Keyword" then 1 else 0),
       st.Identifier + (if k == "Identifier" then 1 else 0),
       st.Constant +
         (if k == "Integer_Constant" || k == "Float_Constant" ||
             k == "Character_Constant" then 1 else 0),
       st.Operator +
         (if k == "Assignment_Operator" || k == "Increment_Decrement_Operator" ||
             k == "Arithmetic_Operator" || k == "Relational_Operator" ||
             k == "Logical_Operator" || k == "Bitwise_Operator" then 1 else 0)⟩ := by
  fin_cases hk <;> rfl

lemma foldl_statStep_eq : ∀ (ts : List Token) (st : Stats),
    (∀ t ∈ ts, t.2.1 ∈ categoryNames) →
    ts.foldl (fun st t => statStep st t.2.1) st =
      ⟨st.Keyword + ts.countP (fun t => t.2.1 == "Keyword"),
       st.Identifier + ts.countP (fun t => t.2.1 == "Identifier"),
       st.Constant + ts.countP
         (fun t => t.2.1 == "Integer_Constant" || t.2.1 == "Float_Constant" ||
           t.2.1 == "Character_Constant"),
       st.Operator + ts.countP
         (fun t => t.2.1 == "Assignment_Operator" || t.2.1 == "Increment_Decrement_Operator" ||
           t.2.1 == "Arithmetic_Operator" || t.2.1 == "Relational_Operator" ||
           t.2.1 == "Logical_Operator" || t.2.1 == "Bitwise_Operator")⟩ := by
  intro ts
  induction ts with
  | nil => intro st h; simp [List.countP_nil]
  | cons t rest ih =>
    intro st h
    rw [List.foldl_cons,
      ih _ (fun u hu => h u (List.mem_cons_of_mem t hu)),
      statStep_of_category (h t (List.mem_cons_self t rest)) st]
    simp only [List.countP_cons, Stats.mk.injEq]
    refine ⟨by omega, by omega, by omega, by omega⟩

/-- C5 counterexample: the `'Constant' in kind` test of
`get_token_stats` also fires for `Character_Constant` (its name
contains the substring `Constant`), so for the token stream of the
source `"'a'"` — one character-literal token — the Constant counter is
1, not the number of integer/float-constant tokens (0). -/
theorem c5_counterexample :
    ¬ ((get_token_stats (lex_code "'a'".data).1).Constant =
       (lex_code "'a'".data).1.countP
         (fun t => t.2.1 == "Integer_Constant" || t.2.1 == "Float_Constant")) := by
  decide

/-- C5 amended: over token streams whose categories come from the rule
table, the Constant counter counts exactly the integer-constant,
float-constant and character-constant tokens (the category names that
contain `"Constant"`); string literals are counted by no counter, and
the other three counters count exactly the keyword, identifier and
operator-category tokens. -/
theorem c5_amended_constant_counter
    (ts : List Token) (h : ∀ t ∈ ts, t.2.1 ∈ categoryNames) :
    get_token_stats ts =
      ⟨ts.countP (fun t => t.2.1 == "Keyword"),
       ts.countP (fun t => t.2.1 == "Identifier"),
       ts.countP
         (fun t => t.2.1 == "Integer_Constant" || t.2.1 == "Float_Constant" ||
           t.2.1 == "Character_Constant"),
       ts.countP
         (fun t => t.2.1 == "Assignment_Operator" || t.2.1 == "Increment_Decrement_Operator" ||
           t.2.1 == "Arithmetic_Operator" || t.2.1 == "Relational_Operator" ||
           t.2.1 == "Logical_Operator" || t.2.1 == "Bitwise_Operator")⟩ := by
  unfold get_token_stats
  rw [foldl_statStep_eq ts ⟨0, 0, 0, 0⟩ h]
  simp

/-- Witness for C5: on the token stream of `"'a' + 1"` the amended
characterization evaluates to counts `⟨0, 0, 2, 1⟩` — the character
literal and the integer both land in Constant. -/
theorem c5_witness :
    (∀ t ∈ (lex_code "'a' + 1".data).1, t.2.1 ∈ categoryNames) ∧
    get_token_stats (lex_code "'a' + 1".data).1 =
      ⟨(lex_code "'a' + 1".data).1.countP (fun t => t.2.1 == "Keyword"),
       (lex_code "'a' + 1".data).1.countP (fun t => t.2.1 == "Identifier"),
       (lex_code "'a' + 1".data).1.countP
         (fun t => t.2.1 == "Integer_Constant" || t.2.1 == "Float_Constant" ||
           t.2.1 == "Character_Constant"),
       (lex_code "'a' + 1".data).1.countP
         (fun t => t.2.1 == "Assignment_Operator" || t.2.1 == "Increment_Decrement_Operator" ||
           t.2.1 == "Arithmetic_Operator" || t.2.1 == "Relational_Operator" ||
           t.2.1 == "Logical_Operator" || t.2.1 == "Bitwise_Operator")⟩ :=
  ⟨by decide, c5_amended_constant_counter (lex_code "'a' + 1".data).1 (by decide)⟩

lemma blockCloseLen_hasSubstr : ∀ (l : List Char) (m : Nat),
    blockCloseLen l = some m → hasSubstr ['*', '/'] l = true := by
  intro l
  induction l with
  | nil => intro m h; simp [blockCloseLen] at h
  | cons c t ih =>
    intro m h
    rcases t with _ | ⟨d, t'⟩
    · simp [blockCloseLen] at h
    · rw [blockCloseLen] at h
      split at h
      · rename_i hcd
        obtain ⟨rfl, rfl⟩ := hcd
        simp [hasSubstr, List.isPrefixOf]
      · obtain ⟨m', hm', _⟩ := Option.map_eq_some'.mp h
        rw [hasSubstr, ih m' hm']
        simp

lemma matchBlockComment_hasSubstr {prev : Option Char} {s : List Char} {n : Nat}
    (h : matchBlockComment prev s = some n) : hasSubstr ['*', '/'] s = true := by
  unfold matchBlockComment at h
  split at h
  · rename_i rest
    obtain ⟨m, hm, _⟩ := Option.map_eq_some'.mp h
    rw [hasSubstr, hasSubstr, blockCloseLen_hasSubstr rest m hm]
    simp
  · cases h

lemma hasSubstr_cons {nd : List Char} {c : Char} {t : List Char}
    (h : hasSubstr nd t = true) : hasSubstr nd (c :: t) = true := by
  rw [hasSubstr, h]
  simp

lemma hasSubstr_drop {nd : List Char} : ∀ (s : List Char) (n : Nat),
    hasSubstr nd (s.drop n) = true → hasSubstr nd s = true := by
  intro s
  induction s with
  | nil => intro n h; simpa using h
  | cons c t ih =>
    intro n h
    match n with
    | 0 => exact h
    | n + 1 => exact hasSubstr_cons (ih n h)

lemma block_comment_matcher {m : Matcher}
    (h : ("Block_Comment", m) ∈ token_specs) : m = matchBlockComment := by
  simp [token_specs] at h
  exact h

lemma scanAux_block_comment : ∀ (fuel : Nat) (prev : Option Char) (s : List Char)
    (v : List Char), ("Block_Comment", v) ∈ scanAux fuel prev s →
    hasSubstr ['*', '/'] s = true := by
  intro fuel
  induction fuel with
  | zero => intro prev s v h; simp [scanAux] at h
  | succ f ih =>
    intro prev s v h
    match s with
    | [] => simp [scanAux] at h
    | c :: rest =>
      rw [scanAux] at h
      cases hf : findFirst token_specs prev (c :: rest) with
      | none => rw [hf] at h; simp at h
      | some kn =>
        obtain ⟨k, n⟩ := kn
        rw [hf] at h
        rcases List.mem_cons.mp h with heq | h
        · have hk : k = "Block_Comment" := (congrArg Prod.fst heq).symm
          subst hk
          obtain ⟨m, hmem, hms⟩ := findFirst_eq_some hf
          rw [block_comment_matcher hmem] at hms
          exact matchBlockComment_hasSubstr hms
        · exact hasSubstr_drop (c :: rest) n (ih _ _ v h)

lemma processMatches_token_src : ∀ (ms : List (String × List Char)) (line : Nat)
    (t : Token), t ∈ (processMatches line ms).1 → ∃ v, (t.2.1, v) ∈ ms := by
  intro ms
  induction ms with
  | nil => intro line t ht; simp [processMatches] at ht
  | cons p rest ih =>
    intro line t ht
    obtain ⟨kind, value⟩ := p
    rw [processMatches] at ht
    split at ht
    · obtain ⟨v, hv⟩ := ih line t ht
      exact ⟨v, List.mem_cons_of_mem _ hv⟩
    · split at ht
      · obtain ⟨v, hv⟩ := ih (line + 1) t ht
        exact ⟨v, List.mem_cons_of_mem _ hv⟩
      · split at ht
        · obtain ⟨v, hv⟩ := ih line t ht
          exact ⟨v, List.mem_cons_of_mem _ hv⟩
        · rcases List.mem_cons.mp ht with rfl | ht
          · exact ⟨value, List.mem_cons_self _ _⟩
          · obtain ⟨v, hv⟩ := ih line t ht
            exact ⟨v, List.mem_cons_of_mem _ hv⟩

/-- C4 counterexample: the input `"/*a"` contains an opener `/*` with
no closing marker, yet the scanner does not emit the remainder as a
single block-comment token: the lazy rule `/\*.*?\*/` needs a closing
`*/`, so `/` and `*` fall through to the arithmetic rule and `a`
becomes an identifier. -/
theorem c4_counterexample :
    lex_code "/*a".data =
      ([(1, "Arithmetic_Operator", "/"), (1, "Arithmetic_Operator", "*"),
        (1, "Identifier", "a")], []) ∧
    (lex_code "/*a".data).1.countP (fun t => t.2.1 == "Block_Comment") = 0 := by
  decide

/-- C4 amended: an unterminated block comment is never swallowed as a
comment token — the block-comment rule only matches up to an actual
closing `*/`.  On any input with no `*/` at all, the scan emits no
block-comment token; the opener's characters go to the other rules
(for `"/*a"`: two arithmetic-operator tokens and an identifier). -/
theorem c4_amended_unterminated_no_block_comment :
    ∀ s : List Char, hasSubstr ['*', '/'] s = false →
      (lex_code s).1.countP (fun t => t.2.1 == "Block_Comment") = 0 := by
  intro s hs
  rw [List.countP_eq_zero]
  intro t ht hkind
  obtain ⟨v, hv⟩ := processMatches_token_src (scanTrace s) 1 t ht
  have hk : t.2.1 = "Block_Comment" := by simpa using hkind
  rw [hk] at hv
  have := scanAux_block_comment s.length none s v hv
  rw [hs] at this
  cases this

/-- Witness for C4 amended at the concrete unterminated input `"/*x"`. -/
theorem c4_witness :
    (lex_code "/*x".data).1.countP (fun t => t.2.1 == "Block_Comment") = 0 :=
  c4_amended_unterminated_no_block_comment "/*x".data (by decide)

lemma filterMap_congr_on {α β : Type} : ∀ (l : List α) (f g : α → Option β),
    (∀ x ∈ l, f x = g x) → l.filterMap f = l.filterMap g := by
  intro l f g h
  induction l with
  | nil => rfl
  | cons a t ih =>
    rw [List.filterMap_cons, List.filterMap_cons,
      h a (List.mem_cons_self a t), ih (fun x hx => h x (List.mem_cons_of_mem a hx))]

lemma filterMap_if_eq_filter_map {α β : Type} (c : α → Prop) [DecidablePred c]
    (f : α → β) : ∀ l : List α,
    l.filterMap (fun a => if c a then some (f a) else none) =
      (l.filter (fun a => decide (c a))).map f := by
  intro l
  induction l with
  | nil => rfl
  | cons a t ih =>
    by_cases h : c a <;>
      simp [List.filterMap_cons, List.filter_cons, h, ih]

lemma tokLabel_eq_claimLabel {o : Option Token} (h : ∀ t, o = some t → t.2.1 ≠ "") :
    tokLabel o = claimLabel o := by
  cases o with
  | none => rfl
  | some t =>
    obtain ⟨l, k, v⟩ := t
    have hk : k ≠ "" := h (l, k, v) rfl
    simp [tokLabel, claimLabel, hk]

/-- C6: for unequal token streams with well-formed (nonempty) category
names, the diff loop emits exactly one row per index of
`[0, max(len A, len B))` at which the aligned tokens differ — position
`i + 1`, label `"category: lexeme"` for an in-range side and `""` for
an out-of-range side — and no rows for agreeing indices. -/
theorem c6_diff_rows_characterization
    (A B : List Token) (_hne : A ≠ B)
    (hA : ∀ t ∈ A, t.2.1 ≠ "") (hB : ∀ t ∈ B, t.2.1 ≠ "") :
    diff_rows A B =
      (List.range (max A.length B.length)).filterMap
        (fun i => if A[i]? ≠ B[i]? then
            some (i + 1, claimLabel A[i]?, claimLabel B[i]?) else none) ∧
    (diff_rows A B).map (fun r => r.1) =
      ((List.range (max A.length B.length)).filter
        (fun i => decide (A[i]? ≠ B[i]?))).map (fun i => i + 1) := by
  have h1 : diff_rows A B =
      (List.range (max A.length B.length)).filterMap
        (fun i => if A[i]? ≠ B[i]? then
            some (i + 1, claimLabel A[i]?, claimLabel B[i]?) else none) := by
    unfold diff_rows
    apply filterMap_congr_on
    intro i _
    have e1 : tokLabel A[i]? = claimLabel A[i]? :=
      tokLabel_eq_claimLabel (fun t ht => hA t (List.getElem?_mem ht))
    have e2 : tokLabel B[i]? = claimLabel B[i]? :=
      tokLabel_eq_claimLabel (fun t ht => hB t (List.getElem?_mem ht))
    by_cases hc : A[i]? ≠ B[i]?
    · simp only [if_pos hc, e1, e2]
    · simp only [if_neg hc]
  refine ⟨h1, ?_⟩
  rw [h1, filterMap_if_eq_filter_map, List.map_map]
  rfl

/-- Witness for C6 at the concrete pair `[(1, Identifier, x)]` and `[]`. -/
theorem c6_witness :
    diff_rows [((1 : Nat), "Identifier", "x")] [] =
      (List.range (max ([((1 : Nat), "Identifier", "x")] : List Token).length
          ([] : List Token).length)).filterMap
        (fun i => if ([((1 : Nat), "Identifier", "x")] : List Token)[i]? ≠
            (([] : List Token))[i]? then
            some (i + 1, claimLabel (([((1 : Nat), "Identifier", "x")] : List Token))[i]?,
              claimLabel ((([] : List Token)))[i]?) else none) :=
  (c6_diff_rows_characterization [((1 : Nat), "Identifier", "x")] []
    (by decide) (by decide) (by decide)).1

/-- C7: the Compare page's verdict is reflexive — a stream compared to
itself is equal with zero rows — and its equality is full structural
equality (same length, same `(line, category, lexeme)` at every
position); comparing the tokens of `"int x;"` to those of `"int y;"`
yields exactly one diff row, at position 2, the differing identifier. -/
theorem c7_diff_reflexive_and_structural :
    (∀ A : List Token, diffStreams A A = (true, [])) ∧
    (∀ A B : List Token, (diffStreams A B).1 = true ↔
      (A.length = B.length ∧ ∀ i : Nat, A[i]? = B[i]?)) ∧
    diffStreams (lex_code "int x;".data).1 (lex_code "int y;".data).1 =
      (false, [(2, "Identifier: x", "Identifier: y")]) := by
  refine ⟨?_, ?_, ?_⟩
  · intro A
    simp [diffStreams, dfEquals]
  · intro A B
    constructor
    · intro h
      by_cases he : A = B
      · subst he; exact ⟨rfl, fun i => rfl⟩
      · exfalso
        simp [diffStreams, dfEquals, he] at h
    · rintro ⟨hlen, hidx⟩
      have : A = B := List.ext_getElem? hidx
      subst this
      simp [diffStreams, dfEquals]
  · decide

lemma isPrefixOf_append_self : ∀ (l r : List Char), l.isPrefixOf (l ++ r) = true := by
  intro l r
  induction l with
  | nil => cases r <;> rfl
  | cons a t ih => simp [List.isPrefixOf, ih]

lemma takeWhile_dropWhile_append {p : Char → Bool} : ∀ (l : List Char) (x : Char)
    (r : List Char), (∀ c ∈ l, p c = true) → p x = false →
    ((l ++ x :: r).takeWhile p = l ∧ (l ++ x :: r).dropWhile p = x :: r) := by
  intro l
  induction l with
  | nil =>
    intro x r _ hx
    simp [List.takeWhile, List.dropWhile, hx]
  | cons a t ih =>
    intro x r hall hx
    have ha : p a = true := hall a (List.mem_cons_self a t)
    have iht := ih x r (fun c hc => hall c (List.mem_cons_of_mem a hc)) hx
    simp [List.takeWhile_cons, List.dropWhile_cons, ha, iht.1, iht.2]

lemma matchLibrary_full (ws nm : List Char)
    (hws : ∀ c ∈ ws, c = ' ' ∨ c = '\t') (hnm : nm ≠ []) (hgt : ∀ c ∈ nm, c ≠ '>') :
    matchLibrary none ("#include".data ++ ws ++ '<' :: (nm ++ ['>'])) =
      some ("#include".data ++ ws ++ '<' :: (nm ++ ['>'])).length := by
  have hws2 : ∀ c ∈ ws, ((fun c => c == ' ' || c == '\t') c) = true := by
    intro c hc
    rcases hws c hc with rfl | rfl <;> decide
  have hnm2 : ∀ c ∈ nm, ((fun c => c != '>') c) = true := by
    intro c hc
    simpa using hgt c hc
  have hsp := takeWhile_dropWhile_append (p := fun c => c == ' ' || c == '\t')
    ws '<' (nm ++ ['>']) hws2 (by decide)
  have hgt2 := takeWhile_dropWhile_append (p := fun c => c != '>')
    nm '>' [] hnm2 (by decide)
  simp only [List.append_nil] at hgt2
  have hpre := isPrefixOf_append_self "#include".data (ws ++ '<' :: (nm ++ ['>']))
  obtain ⟨c0, nm', rfl⟩ : ∃ c0 nm', nm = c0 :: nm' := by
    match nm, hnm with
    | c0 :: nm', _ => exact ⟨c0, nm', rfl⟩
  have h8 : List.drop 8 ("#include".data ++ (ws ++ '<' :: ((c0 :: nm') ++ ['>']))) =
      ws ++ '<' :: ((c0 :: nm') ++ ['>']) := rfl
  have hd : "#include".data = ['#', 'i', 'n', 'c', 'l', 'u', 'd', 'e'] := rfl
  rw [hd] at hpre h8
  simp only [matchLibrary, hd, List.append_assoc]
  simp only [hpre, eq_self_iff_true, if_true, h8, hsp.1, hsp.2, hgt2.1, hgt2.2]
  simp only [Option.some.injEq, List.length_append, List.length_cons,
    List.length_nil, hsp.1, hgt2.1]
  omega

lemma scanAux_step {fuel : Nat} {prev : Option Char} {s : List Char} {k : String}
    {n : Nat} (hne : s ≠ []) (hf : findFirst token_specs prev s = some (k, n)) :
    scanAux (fuel + 1) prev s =
      (k, s.take n) :: scanAux fuel ((s.take n).getLast?) (s.drop n) := by
  match s, hne with
  | c :: rest, _ =>
    rw [scanAux, hf]

/-- C10: the include rule tolerates horizontal whitespace: for any
input `#include` + spaces/tabs + `<name>` with `name` nonempty and
free of `>`, the scan emits exactly one `Library` token whose lexeme is
the whole directive, and the `<` and `>` never become separate
relational or bracket tokens. -/
theorem c10_include_directive (ws nm : List Char)
    (hws : ∀ c ∈ ws, c = ' ' ∨ c = '\t') (hnm : nm ≠ []) (hgt : ∀ c ∈ nm, c ≠ '>') :
    lex_code ("#include".data ++ ws ++ '<' :: (nm ++ ['>'])) =
      ([(1, "Library", String.mk ("#include".data ++ ws ++ '<' :: (nm ++ ['>'])))], []) := by
  have hml := matchLibrary_full ws nm hws hnm hgt
  have hff : findFirst token_specs none ("#include".data ++ ws ++ '<' :: (nm ++ ['>'])) =
      some ("Library", ("#include".data ++ ws ++ '<' :: (nm ++ ['>'])).length) := by
    rw [token_specs, findFirst, hml]
  have hne : ("#include".data ++ ws ++ '<' :: (nm ++ ['>'])) ≠ [] := by simp
  have hpos : 1 ≤ ("#include".data ++ ws ++ '<' :: (nm ++ ['>'])).length := by
    simp [List.length_append]
  obtain ⟨L, hL⟩ : ∃ L, ("#include".data ++ ws ++ '<' :: (nm ++ ['>'])).length = L + 1 :=
    ⟨("#include".data ++ ws ++ '<' :: (nm ++ ['>'])).length - 1, by omega⟩
  have htrace : scanTrace ("#include".data ++ ws ++ '<' :: (nm ++ ['>'])) =
      [("Library", "#include".data ++ ws ++ '<' :: (nm ++ ['>']))] := by
    rw [scanTrace, hL, scanAux_step hne hff, List.take_length, List.drop_length, scanAux_nil]
  rw [lex_code, htrace]
  simp [processMatches]

/-- Witness for C10 at the concrete directive `#include <stdio.h>`. -/
theorem c10_witness :
    lex_code ("#include".data ++ [' '] ++ '<' :: ("stdio.h".data ++ ['>'])) =
      ([(1, "Library",
          String.mk ("#include".data ++ [' '] ++ '<' :: ("stdio.h".data ++ ['>'])))], []) :=
  c10_include_directive [' '] "stdio.h".data (by decide) (by decide) (by decide)
